import Mathlib

/-!
# Diwar Climb — multiplayer state-synchronization layer, shallow embedding

A shallow embedding of the multiplayer networking layer of the Diwar Climb
game: the WebSocket server (`server.js`), the client network module
(`network.js`), and the character animation state machine (`character.js`).

JavaScript `Map` objects and plain JSON objects are modelled as association
lists in insertion order, matching `Map.forEach` / `Object.entries` iteration
order. JSON object keys are strings; the numeric session id assigned by the
server therefore arrives on the wire as a decimal-string key, while the
identity-assignment message carries it as a JSON number. Numeric coordinate
fields are modelled over `Int` (no claim in scope depends on non-integral
values).
-/

namespace DiwarClimb

/-! ## Association-list maps (JS `Map` semantics: set replaces in place,
    otherwise appends; iteration is insertion order) -/

def mapGet [DecidableEq κ] (m : List (κ × α)) (k : κ) : Option α :=
  match m with
  | [] => none
  | (k', v) :: rest => if k' = k then some v else mapGet rest k

def mapSet [DecidableEq κ] (m : List (κ × α)) (k : κ) (v : α) : List (κ × α) :=
  match m with
  | [] => [(k, v)]
  | (k', v') :: rest => if k' = k then (k', v) :: rest else (k', v') :: mapSet rest k v

def mapDelete [DecidableEq κ] (m : List (κ × α)) (k : κ) : List (κ × α) :=
  match m with
  | [] => []
  | (k', v) :: rest => if k' = k then mapDelete rest k else (k', v) :: mapDelete rest k

def keysOf (m : List (κ × α)) : List κ :=
  m.map Prod.fst

def hasKey [DecidableEq κ] (m : List (κ × α)) (k : κ) : Bool :=
  (mapGet m k).isSome

/-! ## Movement State Machine (`character.js`, `updateCharacterAnimation`)

The flag bag passed in once per simulation step; each field defaults to
`false` so concrete inputs can name just the raised flags. -/

structure MovementState where
  dashing : Bool := false
  sliding : Bool := false
  wallRunning : Bool := false
  doubleJumping : Bool := false
  jumping : Bool := false
  falling : Bool := false
  moving : Bool := false
  running : Bool := false
deriving DecidableEq, Repr

/-- The priority reduction of `updateCharacterAnimation`: the if/else-if
chain choosing `targetAnimation` from the movement flags. -/
def pickTarget (ms : MovementState) : String :=
  if ms.dashing then "dash"
  else if ms.sliding then "slide"
  else if ms.wallRunning then "wallRun"
  else if ms.doubleJumping then "doubleJump"
  else if ms.jumping then "jump"
  else if ms.falling then "fall"
  else if ms.moving then (if ms.running then "run" else "walk")
  else "idle"

/-- The `fallbacks` table of `updateCharacterAnimation`; keys absent from the
table (such as `idle`) have no fallback. -/
def fallbackOf : String → Option String
  | "dash" => some "run"
  | "slide" => some "run"
  | "wallRun" => some "jump"
  | "doubleJump" => some "jump"
  | "jump" => some "idle"
  | "fall" => some "idle"
  | "run" => some "walk"
  | "walk" => some "idle"
  | _ => none

/-- Resolution of the target animation against the available animation set
(`characterAnimations`, as its `Object.keys` listing): if the picked target
is unavailable, try its single table fallback; if that is also unavailable
(or there is none), take the first available animation; if no animation is
available at all, hold the current one. -/
def resolveTarget (avail : List String) (current : String) (ms : MovementState) : String :=
  let t := pickTarget ms
  if t ∈ avail then t
  else
    match fallbackOf t with
    | some f => if f ∈ avail then f else avail.headD current
    | none => avail.headD current

/-- Full `updateCharacterAnimation` step: resolves the target, then commits
it as the new `currentAnimation` only when it differs from the current one,
is available, and the current animation also has a clip to fade out. -/
def updateCharacterAnimation (avail : List String) (current : String)
    (ms : MovementState) : String :=
  if avail = [] then current
  else
    let t := resolveTarget avail current ms
    if t ≠ current ∧ t ∈ avail ∧ current ∈ avail then t else current

/-- Modelled from the spec: the priority list as the spec words it — "pick
the first true flag in a fixed priority order", dash > slide > wall-run >
double-jump > jump > fall > run (moving and running) > walk (moving) >
idle. Used only to compare against `pickTarget`. -/
def specPriorityFlags (ms : MovementState) : List (String × Bool) :=
  [("dash", ms.dashing), ("slide", ms.sliding), ("wallRun", ms.wallRunning),
   ("doubleJump", ms.doubleJumping), ("jump", ms.jumping), ("fall", ms.falling),
   ("run", ms.moving && ms.running), ("walk", ms.moving)]

/-- Modelled from the spec: the first entry of `specPriorityFlags` whose flag
is raised, defaulting to `idle`. -/
def specPick (ms : MovementState) : String :=
  match (specPriorityFlags ms).find? (fun e => e.2) with
  | some e => e.1
  | none => "idle"

/-! ## Wire values

`JsId` models the JavaScript values that hold peer identifiers: the
identity-assignment message carries a JSON number, while keys of the
`positions` object arrive as strings. `jsStrictEq` is JavaScript `===`
restricted to these values: operands of different types are never equal. -/

inductive JsId where
  | jnum (n : Nat)
  | jstr (s : String)
deriving DecidableEq, Repr

def jsStrictEq : JsId → JsId → Bool
  | .jnum a, .jnum b => a == b
  | .jstr a, .jstr b => a == b
  | _, _ => false

/-- The client-side test `id !== clientId` from `updateOtherPlayers`, where
`id` is a string key of the received mapping and `clientId` is the stored
identity (`null` before the id message arrives). -/
def jsNeqLocal (id : String) (clientId : Option JsId) : Bool :=
  match clientId with
  | none => true
  | some c => !(jsStrictEq (.jstr id) c)

/-- A position record as it travels on the wire: the `x`, `y`, `z` fields
are always produced, while `rotation` and `animation` may be absent. -/
structure WireState where
  x : Int
  y : Int
  z : Int
  rotation : Option Int := some 0
  animation : Option String := some "idle"
deriving DecidableEq, Repr

/-- JS `v || d` for an optional number: `undefined` and `0` are falsy. -/
def jsOrInt (v : Option Int) (d : Int) : Int :=
  match v with
  | none => d
  | some n => if n = 0 then d else n

/-- JS `v || d` for an optional string: `undefined` and `""` are falsy. -/
def jsOrStr (v : Option String) (d : String) : String :=
  match v with
  | none => d
  | some s => if s = "" then d else s

/-! ## Client network module (`network.js`) -/

/-- An entry of the client's `otherPlayers` map, as normalized by
`updateOtherPlayers` (`rotation: position.rotation || 0`,
`animation: position.animation || 'idle'`). -/
structure RemotePlayer where
  x : Int
  y : Int
  z : Int
  rotation : Int
  animation : String
deriving DecidableEq, Repr

def normalizeRemote (w : WireState) : RemotePlayer :=
  { x := w.x, y := w.y, z := w.z,
    rotation := jsOrInt w.rotation 0,
    animation := jsOrStr w.animation "idle" }

/-- An entry of `otherPlayerMeshes`: the mesh's world position, the yaw
applied through its quaternion, and the `lastAnimation` bookkeeping field. -/
structure MeshData where
  mx : Int := 0
  my : Int := 0
  mz : Int := 0
  rotY : Int := 0
  lastAnimation : String := "idle"
deriving DecidableEq, Repr

/-- A freshly created other-player mesh (`createOtherCharacterMesh` result
paired with `lastAnimation: 'idle'`). -/
def freshMesh : MeshData := {}

/-- The mesh fields after the per-entry update writes the stored remote
player's position, rotation and animation into it. -/
def meshOf (p : RemotePlayer) : MeshData :=
  { mx := p.x, my := p.y, mz := p.z, rotY := p.rotation, lastAnimation := p.animation }

/-- The two client-side maps: `otherPlayers` and `otherPlayerMeshes`. -/
structure ClientCache where
  otherPlayers : List (String × RemotePlayer) := []
  otherPlayerMeshes : List (String × MeshData) := []
deriving DecidableEq, Repr

/-- Observable per-pass effects of the mesh reconciliation: meshes created,
meshes removed from the scene, and animation-transition marks (the
`animation changed` branch). -/
structure MeshEffects where
  created : Nat
  disposed : Nat
  marks : Nat
deriving DecidableEq, Repr

/-- The storing loop of `updateOtherPlayers`: every entry of the received
mapping whose key passes `id !== clientId` is written into `otherPlayers`. -/
def storePlayers (clientId : Option JsId) (positions : List (String × WireState))
    (ops : List (String × RemotePlayer)) : List (String × RemotePlayer) :=
  match positions with
  | [] => ops
  | (id, w) :: rest =>
      let ops' := if jsNeqLocal id clientId then mapSet ops id (normalizeRemote w) else ops
      storePlayers clientId rest ops'

/-- The first loop of `updateOtherPlayerMeshes` over `otherPlayers`: create a
mesh for an id that has none, then write position, quaternion and (when it
changed) `lastAnimation` into it. Returns the updated mesh map, the number of
meshes created, and the number of animation-transition marks. -/
def meshLoop (ops : List (String × RemotePlayer))
    (ms : List (String × MeshData)) : List (String × MeshData) × Nat × Nat :=
  match ops with
  | [] => (ms, 0, 0)
  | (id, p) :: rest =>
      let createdHere : Nat := if hasKey ms id then 0 else 1
      let ms1 := if hasKey ms id then ms else ms ++ [(id, freshMesh)]
      let old := (mapGet ms1 id).getD freshMesh
      let markHere : Nat := if p.animation ≠ old.lastAnimation then 1 else 0
      let ms2 := mapSet ms1 id (meshOf p)
      let r := meshLoop rest ms2
      (r.1, createdHere + r.2.1, markHere + r.2.2)

/-- The second loop of `updateOtherPlayerMeshes`: remove from the scene and
from the map every mesh whose id is no longer in `otherPlayers`. -/
def meshPrune (ops : List (String × RemotePlayer))
    (ms : List (String × MeshData)) : List (String × MeshData) :=
  match ms with
  | [] => []
  | (id, md) :: rest =>
      if hasKey ops id then (id, md) :: meshPrune ops rest else meshPrune ops rest

/-- Whole `updateOtherPlayerMeshes`: creation/update pass, then the prune pass. -/
def updateOtherPlayerMeshes (ops : List (String × RemotePlayer))
    (ms : List (String × MeshData)) : List (String × MeshData) × MeshEffects :=
  let r := meshLoop ops ms
  let kept := meshPrune ops r.1
  (kept, { created := r.2.1, disposed := r.1.length - kept.length, marks := r.2.2 })

/-- Full `updateOtherPlayers(positions)`: store the received entries, then run
`updateOtherPlayerMeshes()`. This is the client's whole reconcile pass for
one `positions` broadcast. -/
def reconcile (clientId : Option JsId) (positions : List (String × WireState))
    (st : ClientCache) : ClientCache × MeshEffects :=
  let ops := storePlayers clientId positions st.otherPlayers
  let r := updateOtherPlayerMeshes ops st.otherPlayerMeshes
  ({ otherPlayers := ops, otherPlayerMeshes := r.1 }, r.2)

/-- The view `sendPlayerPosition` has of the connection: the `isConnected` flag,
whether `socket` is non-null, and the socket's `readyState`
(`WebSocket.OPEN = 1`). -/
structure ClientNet where
  isConnected : Bool
  socketExists : Bool
  readyState : Nat
deriving DecidableEq, Repr

/-- The outbound message `sendPlayerPosition` builds. -/
structure OutboundMsg where
  msgType : String
  payload : RemotePlayer
deriving DecidableEq, Repr

/-- Function `sendPlayerPosition(position)`: transmit one normalized position message
when connected over an open socket, otherwise do nothing — the returned
state is unchanged and the send list is empty (there is no queue). -/
def sendPlayerPosition (st : ClientNet) (pos : WireState) :
    ClientNet × List OutboundMsg :=
  if st.isConnected && st.socketExists && st.readyState == 1 then
    (st, [{ msgType := "position", payload := normalizeRemote pos }])
  else
    (st, [])

/-! ## Server (`server.js`) -/

/-- A parsed inbound client message: its `type` field and its `position`
field, which may be absent (`payload = none` models `data.position` being
`undefined`). -/
structure ClientMsg where
  msgType : String
  payload : Option WireState
deriving DecidableEq, Repr

/-- One entry of the server's `clients` map: the socket's readiness (`true`
models `readyState === WebSocket.OPEN`) and the stored `position` object
(`none` models it having been overwritten with `undefined`). -/
structure SessionRec where
  connOpen : Bool
  position : Option WireState
deriving DecidableEq, Repr

/-- The `position` installed by the connection handler:
`{ x: 0, y: 0, z: 0, rotation: 0, animation: 'idle' }`. -/
def defaultWire : WireState :=
  { x := 0, y := 0, z := 0, rotation := some 0, animation := some "idle" }

abbrev Registry := List (Nat × SessionRec)

/-- Server state: the `nextClientId` counter and the `clients` map. -/
structure ServerState where
  nextClientId : Nat
  clients : Registry
deriving DecidableEq, Repr

def initServer : ServerState := { nextClientId := 1, clients := [] }

/-- The `socket.on('message')` handler body for one inbound frame.
`none` models a frame whose `JSON.parse` throws: the catch block logs and
nothing else happens. On a parsed message of type `position` the stored
`position` is overwritten with the message's `position` field; looking up a
session that is gone throws inside the same `try`, so it too leaves the
registry untouched. The returned flag records whether the handler closed the
connection (it has no code path that does). -/
def handleMessage (cs : Registry) (i : Nat) (m : Option ClientMsg) : Registry × Bool :=
  match m with
  | none => (cs, false)
  | some msg =>
      if msg.msgType = "position" then
        match mapGet cs i with
        | some c => (mapSet cs i { c with position := msg.payload }, false)
        | none => (cs, false)
      else (cs, false)

/-- The events that mutate the server's registry: a new connection (with the
readiness its socket will report), an inbound frame from a session, a close,
and a socket error. -/
inductive SEvent where
  | connect (connOpen : Bool)
  | message (i : Nat) (m : Option ClientMsg)
  | close (i : Nat)
  | socketError (i : Nat)
deriving DecidableEq, Repr

/-- One step of the server's event handling: `connection` registers the next
id with the default position, `close` deletes the session, `error` deletes
it when present (deleting an absent key is the same no-op). -/
def applyEvent (s : ServerState) (e : SEvent) : ServerState :=
  match e with
  | .connect b =>
      { nextClientId := s.nextClientId + 1,
        clients := mapSet s.clients s.nextClientId
          { connOpen := b, position := some defaultWire } }
  | .message i m => { s with clients := (handleMessage s.clients i m).1 }
  | .close i => { s with clients := mapDelete s.clients i }
  | .socketError i => { s with clients := mapDelete s.clients i }

def runServer (s : ServerState) (evs : List SEvent) : ServerState :=
  evs.foldl applyEvent s

/-- The in-memory `positions` object one broadcast tick builds, before
serialization: one key per entry of `clients`, in iteration order, mapped to
that session's stored position (possibly `undefined`). -/
def snapshotPeers (cs : Registry) : List (Nat × Option WireState) :=
  cs.map (fun e => (e.1, e.2.position))

/-- The broadcast message. -/
structure SnapshotBroadcast where
  peers : List (Nat × Option WireState)
deriving DecidableEq, Repr

/-- One body of the `setInterval` callback: when the registry is non-empty,
build one broadcast and send it to every client whose socket is open;
otherwise construct nothing and send nothing. Returns the message built (if
any) and the number of send operations issued. -/
def broadcastTick (cs : Registry) : Option SnapshotBroadcast × Nat :=
  if cs.length > 0 then
    (some { peers := snapshotPeers cs }, (cs.filter (fun e => e.2.connOpen)).length)
  else
    (none, 0)

/-- The ids a tick's broadcast mentions: the keys of the built message's
`peers`, and nothing when no message is built. -/
def tickPeerIds (cs : Registry) : List Nat :=
  match (broadcastTick cs).1 with
  | some b => keysOf b.peers
  | none => []

/-- Effect of `JSON.stringify` on the `positions` object: JSON serialization
omits object properties whose value is `undefined`, so an entry whose stored
position is `none` does not appear in the broadcast that goes on the wire. -/
def serializePeers (peers : List (Nat × Option WireState)) : List (Nat × WireState) :=
  match peers with
  | [] => []
  | (i, some w) :: rest => (i, w) :: serializePeers rest
  | (_, none) :: rest => serializePeers rest

/-- The ids present in the serialized SnapshotBroadcast a tick actually
sends: the keys surviving `JSON.stringify`, and nothing when no message is
built. -/
def wireTickPeerIds (cs : Registry) : List Nat :=
  match (broadcastTick cs).1 with
  | some b => keysOf (serializePeers b.peers)
  | none => []

/-- Structural invariant of the server state: registry keys are unique (it
is a JS `Map`) and below the id counter (ids are never reused). -/
def RegistryInv (s : ServerState) : Prop :=
  (keysOf s.clients).Nodup ∧ ∀ j ∈ keysOf s.clients, j < s.nextClientId

/-- Does this event overwrite, or remove, session `i`'s registry entry?
(Parsed `position` frames from `i`, and close/error of `i`.) -/
def touchesSession (i : Nat) : SEvent → Bool
  | .message j (some m) => j == i && m.msgType == "position"
  | .close j => j == i
  | .socketError j => j == i
  | _ => false

/-! ## Map lemmas -/

theorem mapGet_set_self [DecidableEq κ] (m : List (κ × α)) (k : κ) (v : α) :
    mapGet (mapSet m k v) k = some v := by
  induction m with
  | nil => simp [mapSet, mapGet]
  | cons e rest ih =>
      obtain ⟨k', v'⟩ := e
      by_cases h : k' = k
      · simp [mapSet, mapGet, h]
      · simp [mapSet, mapGet, h, ih]

theorem mapGet_set_ne [DecidableEq κ] (m : List (κ × α)) (k k' : κ) (v : α)
    (h : k' ≠ k) : mapGet (mapSet m k v) k' = mapGet m k' := by
  induction m with
  | nil =>
      simp only [mapSet, mapGet]
      rw [if_neg (fun hk : k = k' => h hk.symm)]
  | cons e rest ih =>
      obtain ⟨k₀, v₀⟩ := e
      by_cases h0 : k₀ = k
      · subst h0
        simp only [mapSet, if_pos rfl, mapGet]
        rw [if_neg (fun hk : k₀ = k' => h hk.symm),
          if_neg (fun hk : k₀ = k' => h hk.symm)]
      · simp only [mapSet, if_neg h0, mapGet]
        by_cases h1 : k₀ = k'
        · rw [if_pos h1, if_pos h1]
        · rw [if_neg h1, if_neg h1]
          exact ih

theorem mapSet_eq_of_get [DecidableEq κ] (m : List (κ × α)) (k : κ) (v : α)
    (h : mapGet m k = some v) : mapSet m k v = m := by
  induction m with
  | nil => simp [mapGet] at h
  | cons e rest ih =>
      obtain ⟨k₀, v₀⟩ := e
      by_cases h0 : k₀ = k
      · simp [mapGet, h0] at h
        simp [mapSet, h0, h]
      · simp [mapGet, h0] at h
        simp [mapSet, h0, ih h]

theorem mapGet_delete_ne [DecidableEq κ] (m : List (κ × α)) (k k' : κ)
    (h : k' ≠ k) : mapGet (mapDelete m k) k' = mapGet m k' := by
  induction m with
  | nil => rfl
  | cons e rest ih =>
      obtain ⟨k₀, v₀⟩ := e
      by_cases h0 : k₀ = k
      · subst h0
        simp only [mapDelete, if_pos rfl, mapGet]
        rw [if_neg (fun hk : k₀ = k' => h hk.symm)]
        exact ih
      · simp only [mapDelete, if_neg h0, mapGet]
        by_cases h1 : k₀ = k'
        · rw [if_pos h1, if_pos h1]
        · rw [if_neg h1, if_neg h1]
          exact ih

theorem mapGet_append_ne [DecidableEq κ] (m : List (κ × α)) (k k' : κ) (v : α)
    (h : k' ≠ k) : mapGet (m ++ [(k, v)]) k' = mapGet m k' := by
  induction m with
  | nil =>
      simp only [List.nil_append, mapGet]
      rw [if_neg (fun hk : k = k' => h hk.symm)]
  | cons e rest ih =>
      obtain ⟨k₀, v₀⟩ := e
      simp only [List.cons_append, mapGet]
      by_cases h0 : k₀ = k'
      · rw [if_pos h0, if_pos h0]
      · rw [if_neg h0, if_neg h0]
        exact ih

theorem mapGet_append_self [DecidableEq κ] (m : List (κ × α)) (k : κ) (v : α)
    (h : mapGet m k = none) : mapGet (m ++ [(k, v)]) k = some v := by
  induction m with
  | nil => simp [mapGet]
  | cons e rest ih =>
      obtain ⟨k₀, v₀⟩ := e
      by_cases h0 : k₀ = k
      · simp only [mapGet, if_pos h0] at h
        simp at h
      · simp only [mapGet, if_neg h0] at h
        simp only [List.cons_append, mapGet, if_neg h0]
        exact ih h

theorem mapGet_meshPrune (ops : List (String × RemotePlayer))
    (ms : List (String × MeshData)) (k : String) (h : hasKey ops k = true) :
    mapGet (meshPrune ops ms) k = mapGet ms k := by
  induction ms with
  | nil => rfl
  | cons e rest ih =>
      obtain ⟨k₀, v₀⟩ := e
      by_cases h0 : k₀ = k
      · subst h0
        simp [meshPrune, h, mapGet]
      · by_cases h1 : hasKey ops k₀ <;> simp [meshPrune, h1, mapGet, h0, ih]

theorem meshPrune_eq_self (ops : List (String × RemotePlayer))
    (ms : List (String × MeshData)) (h : ∀ e ∈ ms, hasKey ops e.1 = true) :
    meshPrune ops ms = ms := by
  induction ms with
  | nil => rfl
  | cons e rest ih =>
      obtain ⟨k₀, v₀⟩ := e
      simp only [meshPrune, if_pos (h (k₀, v₀) (List.mem_cons_self _ _))]
      rw [ih (fun e he => h e (List.mem_cons_of_mem _ he))]

theorem meshPrune_mem (ops : List (String × RemotePlayer))
    (ms : List (String × MeshData)) (e : String × MeshData)
    (h : e ∈ meshPrune ops ms) : hasKey ops e.1 = true := by
  induction ms with
  | nil => simp [meshPrune] at h
  | cons e₀ rest ih =>
      obtain ⟨k₀, v₀⟩ := e₀
      by_cases h1 : hasKey ops k₀
      · simp only [meshPrune, if_pos h1] at h
        rcases List.mem_cons.mp h with h2 | h2
        · subst h2; exact h1
        · exact ih h2
      · simp only [meshPrune, if_neg h1] at h
        exact ih h

theorem mem_get_isSome [DecidableEq κ] (m : List (κ × α)) (e : κ × α)
    (h : e ∈ m) : (mapGet m e.1).isSome = true := by
  induction m with
  | nil => simp at h
  | cons e₀ rest ih =>
      obtain ⟨k₀, v₀⟩ := e₀
      by_cases h0 : k₀ = e.1
      · simp only [mapGet, if_pos h0, Option.isSome_some]
      · rcases List.mem_cons.mp h with h1 | h1
        · rw [h1] at h0
          exact absurd rfl h0
        · simp only [mapGet, if_neg h0]
          exact ih h1

theorem mapGet_eq_none_iff [DecidableEq κ] (m : List (κ × α)) (k : κ) :
    mapGet m k = none ↔ k ∉ keysOf m := by
  induction m with
  | nil => simp [mapGet, keysOf]
  | cons e rest ih =>
      obtain ⟨k₀, v₀⟩ := e
      by_cases h0 : k₀ = k
      · simp [mapGet, keysOf, h0]
      · simp only [mapGet, if_neg h0, keysOf, List.map_cons, List.mem_cons]
        simp only [keysOf] at ih
        rw [ih]
        constructor
        · intro hn hk
          rcases hk with hk | hk
          · exact h0 hk.symm
          · exact hn hk
        · intro hn hk
          exact hn (Or.inr hk)

theorem mem_of_mapGet_some [DecidableEq κ] (m : List (κ × α)) (k : κ) (v : α)
    (h : mapGet m k = some v) : k ∈ keysOf m := by
  by_contra hk
  have h0 := (mapGet_eq_none_iff m k).mpr hk
  rw [h] at h0
  exact Option.noConfusion h0

theorem keysOf_mapDelete_sublist [DecidableEq κ] (m : List (κ × α)) (k : κ) :
    (keysOf (mapDelete m k)).Sublist (keysOf m) := by
  induction m with
  | nil => exact List.Sublist.refl _
  | cons e rest ih =>
      obtain ⟨k₀, v₀⟩ := e
      by_cases h0 : k₀ = k
      · simp only [mapDelete, if_pos h0, keysOf, List.map_cons]
        exact List.Sublist.cons _ ih
      · simp only [mapDelete, if_neg h0, keysOf, List.map_cons]
        exact List.Sublist.cons₂ _ ih

theorem keysOf_mapSet_mem [DecidableEq κ] (m : List (κ × α)) (k : κ) (v : α)
    (h : k ∈ keysOf m) : keysOf (mapSet m k v) = keysOf m := by
  induction m with
  | nil => simp [keysOf] at h
  | cons e rest ih =>
      obtain ⟨k₀, v₀⟩ := e
      by_cases h0 : k₀ = k
      · simp [mapSet, keysOf, h0]
      · simp only [keysOf, List.map_cons, List.mem_cons] at h
        rcases h with h | h
        · exact absurd h.symm h0
        · simp only [mapSet, if_neg h0, keysOf, List.map_cons]
          simp only [keysOf] at ih
          rw [ih h]

theorem keysOf_mapSet_not_mem [DecidableEq κ] (m : List (κ × α)) (k : κ) (v : α)
    (h : k ∉ keysOf m) : keysOf (mapSet m k v) = keysOf m ++ [k] := by
  induction m with
  | nil => simp [mapSet, keysOf]
  | cons e rest ih =>
      obtain ⟨k₀, v₀⟩ := e
      simp only [keysOf, List.map_cons, List.mem_cons] at h
      push_neg at h
      simp only [mapSet, if_neg (fun h0 : k₀ = k => h.1 h0.symm), keysOf,
        List.map_cons, List.cons_append]
      simp only [keysOf] at ih
      rw [ih h.2]

theorem nodup_keys_mapSet [DecidableEq κ] (m : List (κ × α)) (k : κ) (v : α)
    (h : (keysOf m).Nodup) : (keysOf (mapSet m k v)).Nodup := by
  by_cases hk : k ∈ keysOf m
  · rw [keysOf_mapSet_mem m k v hk]
    exact h
  · rw [keysOf_mapSet_not_mem m k v hk]
    refine List.Nodup.append h (List.nodup_singleton k) ?_
    intro a ha hb
    rw [List.mem_singleton] at hb
    exact hk (hb ▸ ha)

/-! ## Reconcile lemmas -/

theorem storePlayers_not_mem (cid : Option JsId) (positions : List (String × WireState))
    (ops : List (String × RemotePlayer)) (id : String) (h : id ∉ keysOf positions) :
    mapGet (storePlayers cid positions ops) id = mapGet ops id := by
  induction positions generalizing ops with
  | nil => rfl
  | cons e rest ih =>
      obtain ⟨id₀, w₀⟩ := e
      simp only [keysOf, List.map_cons, List.mem_cons] at h
      push_neg at h
      have htail : id ∉ keysOf rest := by
        simp only [keysOf]
        exact h.2
      by_cases hq : jsNeqLocal id₀ cid
      · simp only [storePlayers, if_pos hq]
        rw [ih _ htail]
        exact mapGet_set_ne _ _ _ _ h.1
      · simp only [storePlayers, if_neg hq]
        exact ih _ htail

theorem storePlayers_establish (cid : Option JsId) (positions : List (String × WireState))
    (ops : List (String × RemotePlayer)) (hn : (keysOf positions).Nodup) :
    ∀ e ∈ positions, jsNeqLocal e.1 cid = true →
      mapGet (storePlayers cid positions ops) e.1 = some (normalizeRemote e.2) := by
  induction positions generalizing ops with
  | nil => intro e he; simp at he
  | cons e₀ rest ih =>
      obtain ⟨id₀, w₀⟩ := e₀
      simp only [keysOf, List.map_cons, List.nodup_cons] at hn
      intro e he hq
      rcases List.mem_cons.mp he with he₀ | he₀
      · subst he₀
        simp only [storePlayers, if_pos hq]
        rw [storePlayers_not_mem _ _ _ _ (by simpa [keysOf] using hn.1)]
        exact mapGet_set_self _ _ _
      · by_cases hq₀ : jsNeqLocal id₀ cid
        · simp only [storePlayers, if_pos hq₀]
          exact ih _ (by simpa [keysOf] using hn.2) e he₀ hq
        · simp only [storePlayers, if_neg hq₀]
          exact ih _ (by simpa [keysOf] using hn.2) e he₀ hq

theorem storePlayers_fix (cid : Option JsId) (positions : List (String × WireState))
    (ops : List (String × RemotePlayer))
    (h : ∀ e ∈ positions, jsNeqLocal e.1 cid = true →
      mapGet ops e.1 = some (normalizeRemote e.2)) :
    storePlayers cid positions ops = ops := by
  induction positions with
  | nil => rfl
  | cons e₀ rest ih =>
      obtain ⟨id₀, w₀⟩ := e₀
      by_cases hq : jsNeqLocal id₀ cid
      · simp only [storePlayers, if_pos hq]
        rw [mapSet_eq_of_get _ _ _ (h (id₀, w₀) (List.mem_cons_self _ _) hq)]
        exact ih (fun e he hq' => h e (List.mem_cons_of_mem _ he) hq')
      · simp only [storePlayers, if_neg hq]
        exact ih (fun e he hq' => h e (List.mem_cons_of_mem _ he) hq')

theorem nodup_keys_storePlayers (cid : Option JsId)
    (positions : List (String × WireState)) (ops : List (String × RemotePlayer))
    (h : (keysOf ops).Nodup) :
    (keysOf (storePlayers cid positions ops)).Nodup := by
  induction positions generalizing ops with
  | nil => exact h
  | cons e₀ rest ih =>
      obtain ⟨id₀, w₀⟩ := e₀
      by_cases hq : jsNeqLocal id₀ cid
      · simp only [storePlayers, if_pos hq]
        exact ih _ (nodup_keys_mapSet _ _ _ h)
      · simp only [storePlayers, if_neg hq]
        exact ih _ h

theorem meshLoop_not_mem (ops : List (String × RemotePlayer))
    (ms : List (String × MeshData)) (id : String) (h : id ∉ keysOf ops) :
    mapGet (meshLoop ops ms).1 id = mapGet ms id := by
  induction ops generalizing ms with
  | nil => rfl
  | cons e₀ rest ih =>
      obtain ⟨id₀, p₀⟩ := e₀
      simp only [keysOf, List.map_cons, List.mem_cons] at h
      push_neg at h
      have htail : id ∉ keysOf rest := by
        simp only [keysOf]
        exact h.2
      simp only [meshLoop]
      rw [ih _ htail]
      rw [mapGet_set_ne _ _ _ _ h.1]
      by_cases hk : hasKey ms id₀
      · rw [if_pos hk]
      · rw [if_neg hk]
        exact mapGet_append_ne _ _ _ _ h.1

theorem meshLoop_establish (ops : List (String × RemotePlayer))
    (ms : List (String × MeshData)) (hn : (keysOf ops).Nodup) :
    ∀ e ∈ ops, mapGet (meshLoop ops ms).1 e.1 = some (meshOf e.2) := by
  induction ops generalizing ms with
  | nil => intro e he; simp at he
  | cons e₀ rest ih =>
      obtain ⟨id₀, p₀⟩ := e₀
      simp only [keysOf, List.map_cons, List.nodup_cons] at hn
      intro e he
      rcases List.mem_cons.mp he with he₀ | he₀
      · subst he₀
        simp only [meshLoop]
        rw [meshLoop_not_mem _ _ _ (by simpa [keysOf] using hn.1)]
        exact mapGet_set_self _ _ _
      · simp only [meshLoop]
        exact ih _ (by simpa [keysOf] using hn.2) e he₀

theorem meshOf_lastAnimation (p : RemotePlayer) :
    (meshOf p).lastAnimation = p.animation := rfl

theorem meshLoop_fix (ops : List (String × RemotePlayer))
    (ms : List (String × MeshData))
    (h : ∀ e ∈ ops, mapGet ms e.1 = some (meshOf e.2)) :
    meshLoop ops ms = (ms, 0, 0) := by
  induction ops with
  | nil => rfl
  | cons e₀ rest ih =>
      obtain ⟨id₀, p₀⟩ := e₀
      have hget : mapGet ms id₀ = some (meshOf p₀) :=
        h (id₀, p₀) (List.mem_cons_self _ _)
      have hk : hasKey ms id₀ = true := by
        rw [hasKey, hget]
        rfl
      have hset : mapSet ms id₀ (meshOf p₀) = ms := mapSet_eq_of_get _ _ _ hget
      have hrest : meshLoop rest ms = (ms, 0, 0) :=
        ih (fun e he => h e (List.mem_cons_of_mem _ he))
      simp [meshLoop, hk, hget, meshOf_lastAnimation, hset, hrest]

/-! ## Server lemmas -/

theorem snapshotPeers_get (cs : Registry) (i : Nat) :
    mapGet (snapshotPeers cs) i = (mapGet cs i).map SessionRec.position := by
  induction cs with
  | nil => rfl
  | cons e rest ih =>
      obtain ⟨j, c⟩ := e
      by_cases h : j = i
      · simp [snapshotPeers, mapGet, h]
      · simp only [snapshotPeers, List.map_cons] at ih ⊢
        simp [mapGet, h, ih]

theorem keysOf_snapshotPeers (cs : Registry) :
    keysOf (snapshotPeers cs) = keysOf cs := by
  induction cs with
  | nil => rfl
  | cons e rest ih =>
      simp only [snapshotPeers, keysOf, List.map_cons] at ih ⊢
      rw [ih]

theorem tickPeerIds_eq (cs : Registry) : tickPeerIds cs = keysOf cs := by
  cases cs with
  | nil => rfl
  | cons e rest =>
      simp only [tickPeerIds, broadcastTick, List.length_cons]
      rw [if_pos (Nat.succ_pos _)]
      exact keysOf_snapshotPeers _

theorem keysOf_handleMessage (cs : Registry) (i : Nat) (m : Option ClientMsg) :
    keysOf (handleMessage cs i m).1 = keysOf cs := by
  cases m with
  | none => rfl
  | some msg =>
      by_cases hty : msg.msgType = "position"
      · simp only [handleMessage, if_pos hty]
        cases hcase : mapGet cs i with
        | none => rfl
        | some c => exact keysOf_mapSet_mem _ _ _ (mem_of_mapGet_some _ _ _ hcase)
      · simp only [handleMessage, if_neg hty]

theorem registryInv_step (s : ServerState) (e : SEvent) (h : RegistryInv s) :
    RegistryInv (applyEvent s e) := by
  obtain ⟨hn, hb⟩ := h
  cases e with
  | connect b =>
      have hfresh : s.nextClientId ∉ keysOf s.clients := fun hm =>
        Nat.lt_irrefl _ (hb _ hm)
      refine ⟨nodup_keys_mapSet _ _ _ hn, ?_⟩
      intro j hj
      simp only [applyEvent] at hj ⊢
      rw [keysOf_mapSet_not_mem _ _ _ hfresh] at hj
      rcases List.mem_append.mp hj with hj | hj
      · exact Nat.lt_succ_of_lt (hb _ hj)
      · rw [List.mem_singleton] at hj
        subst hj
        exact Nat.lt_succ_self _
  | message i m =>
      refine ⟨?_, ?_⟩
      · simp only [applyEvent]
        rw [keysOf_handleMessage]
        exact hn
      · intro j hj
        simp only [applyEvent] at hj ⊢
        rw [keysOf_handleMessage] at hj
        exact hb _ hj
  | close i =>
      refine ⟨List.Sublist.nodup (keysOf_mapDelete_sublist _ _) hn, ?_⟩
      intro j hj
      simp only [applyEvent] at hj ⊢
      exact hb _ ((keysOf_mapDelete_sublist _ _).subset hj)
  | socketError i =>
      refine ⟨List.Sublist.nodup (keysOf_mapDelete_sublist _ _) hn, ?_⟩
      intro j hj
      simp only [applyEvent] at hj ⊢
      exact hb _ ((keysOf_mapDelete_sublist _ _).subset hj)

theorem registryInv_runAux (evs : List SEvent) :
    ∀ s, RegistryInv s → RegistryInv (runServer s evs) := by
  induction evs with
  | nil => exact fun s h => h
  | cons e rest ih => exact fun s h => ih _ (registryInv_step s e h)

theorem registryInv_run (evs : List SEvent) :
    RegistryInv (runServer initServer evs) :=
  registryInv_runAux evs initServer
    ⟨List.nodup_nil, fun j hj => absurd hj (List.not_mem_nil j)⟩

theorem keysOf_serialize_subset (peers : List (Nat × Option WireState)) (i : Nat)
    (h : i ∈ keysOf (serializePeers peers)) : i ∈ keysOf peers := by
  induction peers with
  | nil => simp [serializePeers, keysOf] at h
  | cons e rest ih =>
      obtain ⟨j, p⟩ := e
      cases p with
      | some w =>
          simp only [serializePeers, keysOf, List.map_cons, List.mem_cons] at h ⊢
          rcases h with h | h
          · exact Or.inl h
          · exact Or.inr (ih h)
      | none =>
          simp only [serializePeers] at h
          simp only [keysOf, List.map_cons, List.mem_cons]
          exact Or.inr (ih h)

theorem mem_keys_serialize_iff (peers : List (Nat × Option WireState))
    (hn : (keysOf peers).Nodup) (i : Nat) :
    i ∈ keysOf (serializePeers peers) ↔ ∃ w, mapGet peers i = some (some w) := by
  induction peers with
  | nil => simp [serializePeers, keysOf, mapGet]
  | cons e rest ih =>
      obtain ⟨j, p⟩ := e
      simp only [keysOf, List.map_cons, List.nodup_cons] at hn
      have ihr := ih hn.2
      cases p with
      | some w0 =>
          by_cases hji : j = i
          · subst hji
            simp [serializePeers, keysOf, mapGet]
          · have hij : ¬ i = j := fun hk => hji hk.symm
            simp only [serializePeers, keysOf, List.map_cons, List.mem_cons, mapGet,
              if_neg hji]
            constructor
            · intro h
              rcases h with h | h
              · exact absurd h hij
              · exact ihr.mp h
            · intro h
              exact Or.inr (ihr.mpr h)
      | none =>
          by_cases hji : j = i
          · subst hji
            simp only [serializePeers, mapGet, eq_self_iff_true, if_true]
            constructor
            · intro h
              exact absurd (keysOf_serialize_subset rest j h) hn.1
            · rintro ⟨w, hw⟩
              exact Option.noConfusion (Option.some.inj hw)
          · simp only [serializePeers, mapGet, if_neg hji]
            exact ihr

theorem wireTickPeerIds_eq (cs : Registry) :
    wireTickPeerIds cs = keysOf (serializePeers (snapshotPeers cs)) := by
  cases cs with
  | nil => rfl
  | cons e rest =>
      simp only [wireTickPeerIds, broadcastTick, List.length_cons]
      rw [if_pos (Nat.succ_pos _)]

theorem step_stable (i : Nat) (rec : SessionRec) (e : SEvent) (s : ServerState)
    (hget : mapGet s.clients i = some rec) (hlt : i < s.nextClientId)
    (ht : touchesSession i e = false) :
    mapGet (applyEvent s e).clients i = some rec ∧ i < (applyEvent s e).nextClientId := by
  cases e with
  | connect b =>
      constructor
      · simp only [applyEvent]
        rw [mapGet_set_ne _ _ _ _ (Nat.ne_of_lt hlt)]
        exact hget
      · simp only [applyEvent]
        exact Nat.lt_succ_of_lt hlt
  | message j m =>
      cases m with
      | none => exact ⟨hget, hlt⟩
      | some msg =>
          refine ⟨?_, hlt⟩
          simp only [applyEvent, handleMessage]
          by_cases hty : msg.msgType = "position"
          · have hji : j ≠ i := by
              simp only [touchesSession, hty] at ht
              intro hj
              subst hj
              simp at ht
            rw [if_pos hty]
            cases hcase : mapGet s.clients j with
            | none => exact hget
            | some c =>
                simp only []
                rw [mapGet_set_ne _ _ _ _ (fun hk : i = j => hji hk.symm)]
                exact hget
          · rw [if_neg hty]
            exact hget
  | close j =>
      have hji : j ≠ i := by
        simp only [touchesSession] at ht
        intro hj
        subst hj
        simp at ht
      refine ⟨?_, hlt⟩
      simp only [applyEvent]
      rw [mapGet_delete_ne _ _ _ (fun hk : i = j => hji hk.symm)]
      exact hget
  | socketError j =>
      have hji : j ≠ i := by
        simp only [touchesSession] at ht
        intro hj
        subst hj
        simp at ht
      refine ⟨?_, hlt⟩
      simp only [applyEvent]
      rw [mapGet_delete_ne _ _ _ (fun hk : i = j => hji hk.symm)]
      exact hget

theorem applyEvent_message (s : ServerState) (i : Nat) (m : Option ClientMsg) :
    applyEvent s (.message i m) = { s with clients := (handleMessage s.clients i m).1 } :=
  rfl

theorem handleMessage_position (cs : Registry) (i : Nat) (c : SessionRec)
    (p : Option WireState) (h : mapGet cs i = some c) :
    handleMessage cs i (some { msgType := "position", payload := p })
      = (mapSet cs i { connOpen := c.connOpen, position := p }, false) := by
  simp only [handleMessage, eq_self_iff_true, if_true, h]

theorem session_stable (i : Nat) (rec : SessionRec) (evs : List SEvent)
    (s : ServerState) (hget : mapGet s.clients i = some rec)
    (hlt : i < s.nextClientId)
    (h : ∀ e ∈ evs, touchesSession i e = false) :
    mapGet (runServer s evs).clients i = some rec ∧
      i < (runServer s evs).nextClientId := by
  induction evs generalizing s with
  | nil => exact ⟨hget, hlt⟩
  | cons e rest ih =>
      have hstep := step_stable i rec e s hget hlt (h e (List.mem_cons_self _ _))
      exact ih (applyEvent s e) hstep.1 hstep.2
        (fun e' he' => h e' (List.mem_cons_of_mem _ he'))

/-! ## Claim theorems -/

/-- C5: for every `MovementState` flag assignment, the discrete state picked
by the animation priority reduction is the first true flag in the fixed
order dash > slide > wallRun > doubleJump > jump > fall > run (moving and
running) > walk (moving) > idle, i.e. `pickTarget` agrees with the
spec-worded `specPick`; in particular, flags `{jumping, running}` select
`jump` and never `run`. -/
theorem c5_priority_selection :
    (∀ ms : MovementState, pickTarget ms = specPick ms) ∧
    pickTarget { jumping := true, running := true } = "jump" ∧
    pickTarget { jumping := true, running := true } ≠ "run" := by
  refine ⟨?_, by decide, by decide⟩
  intro ms
  obtain ⟨d, sl, w, dj, j, f, mv, r⟩ := ms
  cases d <;> cases sl <;> cases w <;> cases dj <;> cases j <;> cases f <;>
    cases mv <;> cases r <;> rfl

/-- C4 as stated is false at a concrete input: with `sliding` raised and the
available animations listed as `["idle", "walk"]` (so `slide` and its
fallback `run` are both unavailable but `walk` is available), the code
selects `idle` — the first listed animation — and not `walk` as the claimed
chain walk would require. -/
theorem c4_counterexample :
    resolveTarget ["idle", "walk"] "idle" { sliding := true } = "idle" ∧
    "walk" ∈ ["idle", "walk"] ∧
    resolveTarget ["idle", "walk"] "idle" { sliding := true } ≠ "walk" := by
  refine ⟨by decide, by decide, by decide⟩

/-- C4 (amended): when the picked target animation is unavailable the state
machine substitutes a single step of the fixed fallback table; if that
fallback is also unavailable — or the target has no table entry — it selects
the first available animation in listing order, and it holds the previous
state only when no animation is available at all. -/
theorem c4_single_step_fallback (avail : List String) (current : String)
    (ms : MovementState) (h : pickTarget ms ∉ avail) :
    resolveTarget avail current ms =
      (match fallbackOf (pickTarget ms) with
       | some f => if f ∈ avail then f else avail.headD current
       | none => avail.headD current) := by
  simp only [resolveTarget, if_neg h]

theorem c4_single_step_fallback_witness :
    pickTarget { sliding := true } ∉ ["idle", "walk"] ∧
    resolveTarget ["idle", "walk"] "run" { sliding := true } =
      (match fallbackOf (pickTarget ({ sliding := true } : MovementState)) with
       | some f => if f ∈ ["idle", "walk"] then f
                   else (["idle", "walk"] : List String).headD "run"
       | none => (["idle", "walk"] : List String).headD "run") :=
  ⟨by decide,
    c4_single_step_fallback ["idle", "walk"] "run" { sliding := true } (by decide)⟩

/-- C1 as stated is false at a concrete reachable input: after a connect and
the parsed frame `{"type":"position"}` (no `position` field), the session's
stored position is `undefined`; `JSON.stringify` omits that key, so the
session id 1 is registered but absent from the serialized SnapshotBroadcast
the tick sends. -/
theorem c1_counterexample_undefined_position :
    1 ∈ keysOf (runServer initServer
      [.connect true, .message 1 (some { msgType := "position", payload := none })]).clients ∧
    1 ∉ wireTickPeerIds (runServer initServer
      [.connect true, .message 1 (some { msgType := "position", payload := none })]).clients :=
  ⟨by decide, by decide⟩

/-- C1 (amended): after every sequence of connect, disconnect and
inbound-update events, the ids present in the serialized SnapshotBroadcast a
tick sends are exactly the registered sessions whose stored position is
defined: a removed session never appears, and a registered session appears
iff its position has not been overwritten with `undefined` by a parsed
position-typed frame lacking a `position` field (JSON serialization omits
`undefined`-valued keys; the in-memory `positions` object still keys every
registered session). -/
theorem c1_wire_ids_are_defined_registered (evs : List SEvent) (i : Nat) :
    i ∈ wireTickPeerIds (runServer initServer evs).clients ↔
      ∃ c, mapGet (runServer initServer evs).clients i = some c ∧
        c.position.isSome = true := by
  have hn : (keysOf (runServer initServer evs).clients).Nodup :=
    (registryInv_run evs).1
  have hn' : (keysOf (snapshotPeers (runServer initServer evs).clients)).Nodup := by
    rw [keysOf_snapshotPeers]
    exact hn
  rw [wireTickPeerIds_eq, mem_keys_serialize_iff _ hn' i]
  constructor
  · rintro ⟨w, hw⟩
    rw [snapshotPeers_get] at hw
    obtain ⟨c, hc, hcp⟩ := Option.map_eq_some'.mp hw
    refine ⟨c, hc, ?_⟩
    rw [hcp]
    rfl
  · rintro ⟨c, hc, hs⟩
    obtain ⟨w, hw⟩ := Option.isSome_iff_exists.mp hs
    refine ⟨w, ?_⟩
    rw [snapshotPeers_get, hc, Option.map_some', hw]

/-- C7: an inbound frame that fails to parse is dropped whole — the handler
does not close the connection, the registry (hence the session's
registration and its stored `position`) is exactly what it was. -/
theorem c7_parse_failure_drops_single_message (cs : Registry) (i : Nat) :
    handleMessage cs i none = (cs, false) ∧
    mapGet (handleMessage cs i none).1 i = mapGet cs i :=
  ⟨rfl, rfl⟩

/-- C8: a broadcast tick that finds zero registered sessions constructs no
message and issues zero send operations. -/
theorem c8_empty_registry_tick_is_silent (cs : Registry) (h : cs.length = 0) :
    broadcastTick cs = (none, 0) := by
  rw [List.length_eq_zero] at h
  subst h
  rfl

theorem c8_empty_registry_tick_is_silent_witness :
    ([] : Registry).length = 0 ∧ broadcastTick [] = (none, 0) :=
  ⟨rfl, c8_empty_registry_tick_is_silent [] rfl⟩

/-- C9: when the client is not in the connected state or its socket is not
open, `sendPlayerPosition` transmits nothing, queues nothing, and leaves the
connection state unchanged. -/
theorem c9_send_dropped_when_not_connected (st : ClientNet) (pos : WireState)
    (h : ¬(st.isConnected = true ∧ st.socketExists = true ∧ st.readyState = 1)) :
    sendPlayerPosition st pos = (st, []) := by
  have hcond : (st.isConnected && st.socketExists && st.readyState == 1) ≠ true := by
    intro hc
    rw [Bool.and_eq_true, Bool.and_eq_true] at hc
    exact h ⟨hc.1.1, hc.1.2, by simpa using hc.2⟩
  simp only [sendPlayerPosition, if_neg hcond]

theorem c9_send_dropped_when_not_connected_witness :
    ¬((⟨false, true, 1⟩ : ClientNet).isConnected = true ∧
        (⟨false, true, 1⟩ : ClientNet).socketExists = true ∧
        (⟨false, true, 1⟩ : ClientNet).readyState = 1) ∧
    sendPlayerPosition ⟨false, true, 1⟩ defaultWire = (⟨false, true, 1⟩, []) :=
  ⟨by decide, c9_send_dropped_when_not_connected ⟨false, true, 1⟩ defaultWire (by decide)⟩

/-- C2: the claim is violated by the code. At a concrete cache holding peer
`"2"` and a snapshot containing only `"1"`, the reconcile pass keeps `"2"`
in `otherPlayers`, keeps its mesh alive, disposes nothing — and the cached
ids are not a subset of the snapshot's ids. (`updateOtherPlayers` never
deletes entries absent from the snapshot, so the mesh-prune loop, which is
keyed on `otherPlayers`, can never fire for them.) -/
theorem c2_stale_entity_never_removed :
    (reconcile (some (.jnum 3)) [("1", defaultWire)]
        { otherPlayers := [("2", ⟨5, 6, 7, 1, "run"⟩)],
          otherPlayerMeshes := [("2", ⟨5, 6, 7, 1, "run"⟩)] }).2.disposed = 0 ∧
    mapGet (reconcile (some (.jnum 3)) [("1", defaultWire)]
        { otherPlayers := [("2", ⟨5, 6, 7, 1, "run"⟩)],
          otherPlayerMeshes := [("2", ⟨5, 6, 7, 1, "run"⟩)] }).1.otherPlayers "2"
      = some ⟨5, 6, 7, 1, "run"⟩ ∧
    hasKey (reconcile (some (.jnum 3)) [("1", defaultWire)]
        { otherPlayers := [("2", ⟨5, 6, 7, 1, "run"⟩)],
          otherPlayerMeshes := [("2", ⟨5, 6, 7, 1, "run"⟩)] }).1.otherPlayerMeshes "2"
      = true ∧
    "2" ∉ keysOf [("1", defaultWire)] := by
  refine ⟨by decide, by decide, by decide, by decide⟩

/-- C3: the claim is violated by the code. With the identity assigned as the
JSON number `1` and a snapshot whose keys are strings, the strict comparison
`id !== clientId` compares `"1"` against `1` and is always true, so the
client stores a remote-player record and creates a mesh for its own local
id. -/
theorem c3_local_id_not_skipped :
    (reconcile (some (.jnum 1)) [("1", { x := 9, y := 8, z := 7 })] {}).2.created = 1 ∧
    mapGet (reconcile (some (.jnum 1))
        [("1", { x := 9, y := 8, z := 7 })] {}).1.otherPlayers "1"
      = some ⟨9, 8, 7, 0, "idle"⟩ ∧
    hasKey (reconcile (some (.jnum 1))
        [("1", { x := 9, y := 8, z := 7 })] {}).1.otherPlayerMeshes "1" = true := by
  refine ⟨by decide, by decide, by decide⟩

/-- C6: running the reconcile pass twice with the identical snapshot yields
the same cache as running it once, and the second pass creates no entity,
disposes no entity, and marks no animation transition. (The key lists are
unique-keyed, as JS `Map`s and JSON objects are.) -/
theorem c6_reconcile_idempotent (cid : Option JsId)
    (snap : List (String × WireState)) (st : ClientCache)
    (h1 : (keysOf st.otherPlayers).Nodup) (h2 : (keysOf snap).Nodup) :
    reconcile cid snap (reconcile cid snap st).1 =
      ((reconcile cid snap st).1, { created := 0, disposed := 0, marks := 0 }) := by
  have hopsnodup : (keysOf (storePlayers cid snap st.otherPlayers)).Nodup :=
    nodup_keys_storePlayers _ _ _ h1
  have hfixstore :
      storePlayers cid snap (storePlayers cid snap st.otherPlayers)
        = storePlayers cid snap st.otherPlayers :=
    storePlayers_fix _ _ _ (storePlayers_establish _ _ _ h2)
  have hestmesh :
      ∀ e ∈ storePlayers cid snap st.otherPlayers,
        mapGet (meshLoop (storePlayers cid snap st.otherPlayers)
          st.otherPlayerMeshes).1 e.1 = some (meshOf e.2) :=
    meshLoop_establish _ _ hopsnodup
  have hkeptget :
      ∀ e ∈ storePlayers cid snap st.otherPlayers,
        mapGet (meshPrune (storePlayers cid snap st.otherPlayers)
          (meshLoop (storePlayers cid snap st.otherPlayers)
            st.otherPlayerMeshes).1) e.1 = some (meshOf e.2) := by
    intro e he
    rw [mapGet_meshPrune _ _ _ (mem_get_isSome _ _ he)]
    exact hestmesh e he
  have hloopfix :
      meshLoop (storePlayers cid snap st.otherPlayers)
        (meshPrune (storePlayers cid snap st.otherPlayers)
          (meshLoop (storePlayers cid snap st.otherPlayers)
            st.otherPlayerMeshes).1)
      = (meshPrune (storePlayers cid snap st.otherPlayers)
          (meshLoop (storePlayers cid snap st.otherPlayers)
            st.otherPlayerMeshes).1, 0, 0) :=
    meshLoop_fix _ _ hkeptget
  have hprunekept :
      meshPrune (storePlayers cid snap st.otherPlayers)
        (meshPrune (storePlayers cid snap st.otherPlayers)
          (meshLoop (storePlayers cid snap st.otherPlayers)
            st.otherPlayerMeshes).1)
      = meshPrune (storePlayers cid snap st.otherPlayers)
          (meshLoop (storePlayers cid snap st.otherPlayers)
            st.otherPlayerMeshes).1 :=
    meshPrune_eq_self _ _ (fun e he => meshPrune_mem _ _ _ he)
  simp only [reconcile, updateOtherPlayerMeshes, hfixstore, hloopfix, hprunekept,
    Nat.sub_self]

theorem c6_reconcile_idempotent_witness :
    (keysOf (({} : ClientCache)).otherPlayers).Nodup ∧
    (keysOf [("1", defaultWire)]).Nodup ∧
    reconcile none [("1", defaultWire)]
        (reconcile none [("1", defaultWire)] {}).1 =
      ((reconcile none [("1", defaultWire)] {}).1,
        { created := 0, disposed := 0, marks := 0 }) :=
  ⟨by decide, by decide,
    c6_reconcile_idempotent none [("1", defaultWire)] {} (by decide) (by decide)⟩

/-- C10: a new connection is registered with position `(0,0,0)`, rotation
`0`, animation `'idle'`; every broadcast tick's `positions` object maps the
new id to exactly those defaults until the peer's first parsed `position`
message — which overwrites them with its payload — as long as the session
is not closed or errored. -/
theorem c10_new_session_broadcasts_defaults (evs1 evs2 : List SEvent) (b : Bool)
    (p : Option WireState)
    (h : ∀ e ∈ evs2,
      touchesSession (runServer initServer evs1).nextClientId e = false) :
    mapGet (runServer (applyEvent (runServer initServer evs1) (.connect b))
        evs2).clients (runServer initServer evs1).nextClientId
      = some { connOpen := b, position := some defaultWire } ∧
    mapGet (snapshotPeers (runServer (applyEvent (runServer initServer evs1)
        (.connect b)) evs2).clients) (runServer initServer evs1).nextClientId
      = some (some defaultWire) ∧
    mapGet (applyEvent (runServer (applyEvent (runServer initServer evs1)
          (.connect b)) evs2)
        (.message (runServer initServer evs1).nextClientId
          (some { msgType := "position", payload := p }))).clients
        (runServer initServer evs1).nextClientId
      = some { connOpen := b, position := p } := by
  have hconn :
      mapGet (applyEvent (runServer initServer evs1) (.connect b)).clients
        (runServer initServer evs1).nextClientId
      = some { connOpen := b, position := some defaultWire } := by
    simp only [applyEvent]
    exact mapGet_set_self _ _ _
  have hstab := session_stable (runServer initServer evs1).nextClientId _
    evs2 _ hconn (Nat.lt_succ_self _) h
  refine ⟨hstab.1, ?_, ?_⟩
  · rw [snapshotPeers_get, hstab.1]
    rfl
  · rw [applyEvent_message, handleMessage_position _ _ _ p hstab.1]
    exact mapGet_set_self _ _ _

theorem c10_new_session_broadcasts_defaults_witness :
    (∀ e ∈ ([] : List SEvent),
      touchesSession (runServer initServer []).nextClientId e = false) ∧
    (mapGet (runServer (applyEvent (runServer initServer []) (.connect true))
        []).clients (runServer initServer []).nextClientId
      = some { connOpen := true, position := some defaultWire } ∧
    mapGet (snapshotPeers (runServer (applyEvent (runServer initServer [])
        (.connect true)) []).clients) (runServer initServer []).nextClientId
      = some (some defaultWire) ∧
    mapGet (applyEvent (runServer (applyEvent (runServer initServer [])
          (.connect true)) [])
        (.message (runServer initServer []).nextClientId
          (some { msgType := "position", payload := none }))).clients
        (runServer initServer []).nextClientId
      = some { connOpen := true, position := none }) :=
  ⟨by simp,
    c10_new_session_broadcasts_defaults [] [] true none (by simp)⟩

end DiwarClimb
